import Mathlib

/-!
# Verification of the `bluenumbers` BLE advertisement parser

Shallow embedding of `src/bluenumbers/parser.py`: the AD (advertisement
data) packet framing, the per-type payload decoders, the short-to-long
UUID expansion, and the re-encoding path.  Python `bytes` are embedded as
`List (Fin 256)`, Python `str` as Lean `String` (built and inspected only
through its character list), Python `int` as `Nat` (the values that occur
here are all non-negative), and raising an exception as `Except`/`Option`
failure.
-/

namespace Bluenumbers

instance {ε α : Type} [DecidableEq ε] [DecidableEq α] : DecidableEq (Except ε α) := fun x y =>
  match x, y with
  | .error a, .error b =>
    if h : a = b then isTrue (by rw [h]) else isFalse (by intro hc; cases hc; exact h rfl)
  | .ok a, .ok b =>
    if h : a = b then isTrue (by rw [h]) else isFalse (by intro hc; cases hc; exact h rfl)
  | .error _, .ok _ => isFalse (by intro hc; cases hc)
  | .ok _, .error _ => isFalse (by intro hc; cases hc)

/-- One byte, as stored in a Python `bytes` object. -/
abbrev Byte := Fin 256

/-- Models `int.from_bytes(value, "little")`. -/
def bytesToNatLE : List Byte → Nat
  | [] => 0
  | b :: bs => b.val + 256 * bytesToNatLE bs

/-- The numeric values of the `AdType` enumeration in `parser.py`
(`0x10` appears once; `DEVICE_ID` and `SECURITY_MANAGER_TK_VALUE` are
aliases of the same value). -/
def adTypeValues : List Nat :=
  [0x01, 0x02, 0x03, 0x04, 0x05, 0x06, 0x07, 0x08, 0x09, 0x0A, 0x0D, 0x0E,
   0x0F, 0x10, 0x11, 0x12, 0x14, 0x15, 0x16, 0x17, 0x18, 0x19, 0x1A, 0x1B,
   0x1C, 0x1D, 0x1E, 0x1F, 0x20, 0x21, 0x22, 0x23, 0x24, 0x25, 0x26, 0x27,
   0x28, 0x29, 0x2A, 0x2B, 0x2C, 0x2D, 0x2E, 0x2F, 0x30, 0x31, 0x32, 0x34,
   0x3D, 0xFF]

/-- Models `AdStruct`: `length` and `ad_type` are Python ints (the parser stores
the raw bytes it read; a directly constructed structure may carry any
value), `value` is a Python `bytes`. -/
structure AdStruct where
  length : Nat
  ad_type : Nat
  value : List Byte
deriving DecidableEq

/-- Models `AdPacket`: an ordered sequence of AD structures. -/
structure AdPacket where
  ad_structs : List AdStruct
deriving DecidableEq

/-- The recursive generator inside `AdPacket.from_bytes`, with explicit
fuel (the Python recursion consumes at least one byte per step, so
`data.length` steps always suffice; `none` models an uncaught exception).
With at least one byte left it reads `length = data[0]`; a zero length
byte stops framing; `ad_type = data[1]` raises `IndexError` when only one
byte remains; `value = data[2 : length + 1]` and the recursion continues
at `data[length + 1 :]`. -/
def iterateAux : Nat → List Byte → Option (List AdStruct)
  | _, [] => some []
  | 0, _ :: _ => none
  | _ + 1, [l] => if l.val = 0 then some [] else none
  | fuel + 1, l :: t :: rest =>
    if l.val = 0 then some [] else
      (iterateAux fuel ((l :: t :: rest).drop (l.val + 1))).map
        (fun tail =>
          { length := l.val, ad_type := t.val, value := rest.take (l.val - 1) } :: tail)

/-- Models `AdPacket.from_bytes`'s structure iterator. -/
def iterate_ad_structures (data : List Byte) : Option (List AdStruct) :=
  iterateAux data.length data

/-- Models `AdPacket.from_bytes`. -/
def AdPacket.from_bytes (data : List Byte) : Option AdPacket :=
  (iterate_ad_structures data).map AdPacket.mk

/-- Models `AdStruct.__bytes__`: `bytes([self.length, self.ad_type]) + self.value`;
`bytes(...)` raises `ValueError` when `length` or `ad_type` does not fit
in one byte. -/
def AdStruct.toBytes (st : AdStruct) : Option (List Byte) :=
  if h : st.length < 256 ∧ st.ad_type < 256 then
    some (⟨st.length, h.1⟩ :: ⟨st.ad_type, h.2⟩ :: st.value)
  else none

/-- Models `AdPacket.__bytes__`: concatenation of every structure's bytes. -/
def AdPacket.toBytes (p : AdPacket) : Option (List Byte) :=
  (p.ad_structs.mapM AdStruct.toBytes).map List.flatten

/-- Models `AdPacket.get`: first structure whose `ad_type` equals `adt`. -/
def AdPacket.get (p : AdPacket) (adt : Nat) : Option AdStruct :=
  p.ad_structs.find? (fun st => st.ad_type == adt)

/-- Models `AdPacket.get_all`: every structure whose `ad_type` equals `adt`. -/
def AdPacket.get_all (p : AdPacket) (adt : Nat) : List AdStruct :=
  p.ad_structs.filter (fun st => st.ad_type == adt)

/-- Characterization of the one failure mode of the framing recursion:
it aborts exactly when some reached recursion state holds a single
remaining byte whose value is nonzero. -/
def framingAbortsAux : Nat → List Byte → Bool
  | _, [] => false
  | 0, _ :: _ => true
  | _ + 1, [l] => if l.val = 0 then false else true
  | fuel + 1, l :: t :: rest =>
    if l.val = 0 then false
    else framingAbortsAux fuel ((l :: t :: rest).drop (l.val + 1))

/-- Fuel-free wrapper for `framingAbortsAux`. -/
def framingAborts (data : List Byte) : Bool :=
  framingAbortsAux data.length data

/-! ## Hexadecimal formatting and UUID strings

`get_full_uuid` in `parser.py` works over UUID *strings*: it slices the
textual base UUID, splices in `f"{short_uuid:04X}"` / `f"{short_uuid:08X}"`,
and hands the result to `uuid.UUID`, whose constructor strips hyphens,
requires exactly 32 hexadecimal digits and parses them as one 128-bit
integer.  We embed the string layer faithfully. -/

/-- The sixteen uppercase hexadecimal digit characters. -/
def hexUpper : List Char := "0123456789ABCDEF".data

/-- The sixteen lowercase hexadecimal digit characters. -/
def hexLower : List Char := "0123456789abcdef".data

/-- Digits of `x` in base 16, most significant first, with explicit fuel
(`x` itself always suffices, see `hexDigits_unfold`). -/
def hexDigitsAux (alpha : List Char) : Nat → Nat → List Char
  | 0, x => [alpha.getD x '0']
  | fuel + 1, x =>
    if x < 16 then [alpha.getD x '0']
    else hexDigitsAux alpha fuel (x / 16) ++ [alpha.getD (x % 16) '0']

/-- Base-16 digit string of `x` (no padding), as Python `"%X" % x` /
`"%x" % x` produce. -/
def hexDigits (alpha : List Char) (x : Nat) : List Char :=
  hexDigitsAux alpha x x

/-- Left-pad a digit list with `'0'` to width `w`; Python's `{:0wX}`
format never truncates, so wider values keep all their digits. -/
def padLeft (w : Nat) (ds : List Char) : List Char :=
  List.replicate (w - ds.length) '0' ++ ds

/-- Python `f"{x:04X}"` (for `w = 4`), etc. -/
def formatHexUpper (w : Nat) (x : Nat) : String :=
  ⟨padLeft w (hexDigits hexUpper x)⟩

/-- Numeric value of one hexadecimal character, or `none`. -/
def hexCharVal (c : Char) : Option Nat :=
  if '0' ≤ c ∧ c ≤ '9' then some (c.toNat - '0'.toNat)
  else if 'a' ≤ c ∧ c ≤ 'f' then some (10 + (c.toNat - 'a'.toNat))
  else if 'A' ≤ c ∧ c ≤ 'F' then some (10 + (c.toNat - 'A'.toNat))
  else none

/-- Models `int(s, 16)` on a list of characters (no sign/underscore forms occur
in the strings this parser builds). -/
def parseHexDigits (cs : List Char) : Option Nat :=
  (cs.mapM hexCharVal).map (fun ds => ds.foldl (fun acc d => 16 * acc + d) 0)

/-- Models `uuid.UUID(hex_string)`: remove the hyphens, require exactly 32
hexadecimal digits, and read them as a big-endian 128-bit integer.  (The
stdlib constructor also strips `urn:uuid:` prefixes and braces, which
never occur in the strings `parser.py` builds.) -/
def uuidParse (s : String) : Option Nat :=
  let hexChars := s.data.filter (fun c => c ≠ '-')
  if hexChars.length = 32 then parseHexDigits hexChars else none

/-- Models `str(uuid.UUID(...))`: 32 lowercase hexadecimal digits in
8-4-4-4-12 grouping. -/
def uuidToString (n : Nat) : String :=
  let ds := padLeft 32 (hexDigits hexLower n)
  ⟨ds.take 8 ++ ('-' :: (ds.drop 8).take 4) ++ ('-' :: (ds.drop 12).take 4) ++
    ('-' :: (ds.drop 16).take 4) ++ ('-' :: ds.drop 20)⟩

/-- Python string slicing `s[:n]`. -/
def strTake (s : String) (n : Nat) : String := ⟨s.data.take n⟩

/-- Python string slicing `s[n:]`. -/
def strDrop (s : String) (n : Nat) : String := ⟨s.data.drop n⟩

/-- The textual Bluetooth base UUID used by `get_full_uuid`. -/
def baseUuid : String := "00000000-0000-1000-8000-00805F9B34FB"

/-- Models `get_full_uuid(short_uuid, bit_length)`.  The 16-bit branch builds
`base[:4] + f"{x:04X}" + "-" + base[9:]`, the 32-bit branch builds
`f"{x:08X}" + "-" + base[8:]` (note `base[8:]` starts with a hyphen — the
UUID constructor drops all hyphens, so the double hyphen is harmless),
the 128-bit branch is `UUID(int=x)` which requires `x < 2^128`; any other
bit length raises `ValueError` (the spec's `InvalidArgument`). -/
def get_full_uuid (short_uuid : Nat) (bit_length : Nat) : Except String Nat :=
  if bit_length = 16 then
    match uuidParse (strTake baseUuid 4 ++ formatHexUpper 4 short_uuid ++ "-" ++
        strDrop baseUuid 9) with
    | some n => .ok n
    | none => .error "badly formed hexadecimal UUID string"
  else if bit_length = 32 then
    match uuidParse (formatHexUpper 8 short_uuid ++ "-" ++ strDrop baseUuid 8) with
    | some n => .ok n
    | none => .error "badly formed hexadecimal UUID string"
  else if bit_length = 128 then
    if short_uuid < 2 ^ 128 then .ok short_uuid
    else .error "int is out of range (need a 128-bit value)"
  else .error "Invalid bit length. Must be 16, 32, or 128."

/-! ## Type-specific decoders -/

/-- Models `decode_flags`: `Flags(int.from_bytes(value, "little"))`; `Flags` is
an `IntFlag` with the default `KEEP` boundary, so the result is fully
described by its underlying integer (unknown bits preserved). -/
def decode_flags (value : List Byte) : Nat := bytesToNatLE value

/-- The `uuid_length` dictionary inside `decode_uuid_list`: bit width per
UUID-list AD type; `none` is the dictionary's `KeyError`. -/
def uuidListWidth (adt : Nat) : Option Nat :=
  [(0x02, 16), (0x03, 16), (0x04, 32), (0x05, 32), (0x06, 128), (0x07, 128),
   (0x14, 16), (0x1F, 32), (0x15, 128)].lookup adt

/-- The `for i in range(0, len(value), uuid_length // 8)` loop of
`decode_uuid_list`, with explicit fuel (each iteration consumes
`uuid_length // 8 ≥ 1` bytes, so `value.length` steps suffice). -/
def uuidListLoopAux : Nat → Nat → List Byte → Except String (List String)
  | _, _, [] => .ok []
  | 0, _, _ :: _ => .error "out of fuel"
  | fuel + 1, w, b :: bs =>
    match get_full_uuid (bytesToNatLE ((b :: bs).take (w / 8))) w with
    | .error e => .error e
    | .ok u =>
      (uuidListLoopAux fuel w ((b :: bs).drop (w / 8))).map (fun rest => uuidToString u :: rest)

/-- The chunking loop of `decode_uuid_list`; a zero byte step would make
Python's `range` raise before iterating (never reached: widths are 16, 32
or 128). -/
def uuidListLoop (w : Nat) (v : List Byte) : Except String (List String) :=
  if w / 8 = 0 then .error "range() arg 3 must not be zero"
  else uuidListLoopAux v.length w v

/-- Models `decode_uuid_list(ad_type, value)`; `none` models the `KeyError` when
`ad_type` is not one of the nine list types (unreachable from
`decode_ad_struct`). -/
def decode_uuid_list (adt : Nat) (value : List Byte) : Option (Except String (List String)) :=
  (uuidListWidth adt).map (fun w => uuidListLoop w value)

/-- Models `ServiceData` record: UUID string plus opaque payload bytes. -/
structure ServiceData where
  uuid : String
  data : List Byte
deriving DecidableEq

/-- The `uuid_length` dictionary inside `decode_service_data`. -/
def serviceDataWidth (adt : Nat) : Option Nat :=
  [(0x16, 16), (0x20, 32), (0x21, 128)].lookup adt

/-- Models `decode_service_data(ad_type, value)`: the first `width/8` bytes
(little-endian) become the expanded UUID, the rest is opaque payload. -/
def decode_service_data (adt : Nat) (value : List Byte) :
    Option (Except String ServiceData) :=
  (serviceDataWidth adt).map (fun w =>
    (get_full_uuid (bytesToNatLE (value.take (w / 8))) w).map
      (fun u => { uuid := uuidToString u, data := value.drop (w / 8) }))

/-- Models `ManufacturerData` record (the derived `company_name` registry lookup
is an external-collaborator concern and carries no parsing logic). -/
structure ManufacturerData where
  company_identifier : Nat
  data : List Byte
deriving DecidableEq

/-- Models `decode_manufacturer_data(value)`. -/
def decode_manufacturer_data (value : List Byte) : ManufacturerData :=
  { company_identifier := bytesToNatLE (value.take 2), data := value.drop 2 }

/-- Models `DecodedAdValue`: the sum of the decoders' result types. -/
inductive DecodedAdValue where
  | flags (bits : Nat)
  | uuidList (uuids : List String)
  | serviceData (sd : ServiceData)
  | manufacturerData (md : ManufacturerData)
  | text (s : String)
deriving DecidableEq

/-- Models `decode_ad_struct(ad_type, value)`.  Unrecognized types yield `None`.
Note: the source's local-name/URI arm reads
`case AdType.SHORTENED_LOCAL_NAME, AdType.COMPLETE_LOCAL_NAME, AdType.URI:`,
which Python parses as a *sequence pattern* matching only a 3-tuple; the
subject is an `AdType` (an `int`), so that arm never matches and those
types fall through to the default `None` arm.  The embedding reflects
that behaviour, so the `.text` variant is never produced. -/
def decode_ad_struct (adt : Nat) (value : List Byte) :
    Except String (Option DecodedAdValue) :=
  if adt ∈ adTypeValues then
    if adt = 0x01 then .ok (some (.flags (decode_flags value)))
    else
      match decode_uuid_list adt value with
      | some r => r.map (fun l => some (.uuidList l))
      | none =>
        match decode_service_data adt value with
        | some r => r.map (fun sd => some (.serviceData sd))
        | none =>
          if adt = 0xFF then .ok (some (.manufacturerData (decode_manufacturer_data value)))
          else .ok none
  else .ok none

/-- Models `AdStruct.decoded` (computed on demand). -/
def AdStruct.decoded (st : AdStruct) : Except String (Option DecodedAdValue) :=
  decode_ad_struct st.ad_type st.value

/-- Models `AdPacket.name`: `self.get(COMPLETE_LOCAL_NAME) or self.get(SHORTENED_LOCAL_NAME)`,
then the found structure's `decoded` value (the `cast(str, ...)` in the
source is a no-op at runtime, so whatever `decoded` returns is returned). -/
def AdPacket.name (p : AdPacket) : Except String (Option DecodedAdValue) :=
  match (p.get 0x09).orElse (fun _ => p.get 0x08) with
  | none => .ok none
  | some st => st.decoded

/-- Models `AdPacket.manufacturer_id`: company identifier of the first
manufacturer-data structure; `.ok none` when there is none.  A structure
whose `decoded` is not manufacturer data would make the source's
attribute access raise `AttributeError`. -/
def AdPacket.manufacturer_id (p : AdPacket) : Except String (Option Nat) :=
  match p.get 0xFF with
  | none => .ok none
  | some st =>
    match st.decoded with
    | .error e => .error e
    | .ok (some (.manufacturerData md)) => .ok (some md.company_identifier)
    | .ok _ => .error "AttributeError"

/-- The fixed iteration order of UUID-list AD types in `AdPacket.uuids`. -/
def uuidListTypesOrdered : List Nat := [0x02, 0x03, 0x04, 0x05, 0x06, 0x07, 0x14, 0x1F, 0x15]

/-- The fixed iteration order of service-data AD types in `AdPacket.uuids`. -/
def serviceDataTypesOrdered : List Nat := [0x16, 0x20, 0x21]

/-- One UUID-list structure's contribution to `AdPacket.uuids`:
`[UUID(s) for s in cast(list[str], ad_struct.decoded)]`.  A decode error
propagates; a non-list `decoded` would make the iteration raise
`TypeError`; an unparseable UUID string would raise `ValueError`. -/
def structListUuids (st : AdStruct) : Except String (List Nat) :=
  match st.decoded with
  | .error e => .error e
  | .ok (some (.uuidList ss)) =>
    match ss.mapM uuidParse with
    | some ns => .ok ns
    | none => .error "badly formed hexadecimal UUID string"
  | .ok _ => .error "TypeError"

/-- One service-data structure's contribution to `AdPacket.uuids`:
`UUID(cast(ServiceData, ad_struct.decoded).uuid)`. -/
def structServiceUuid (st : AdStruct) : Except String (List Nat) :=
  match st.decoded with
  | .error e => .error e
  | .ok (some (.serviceData sd)) =>
    match uuidParse sd.uuid with
    | some n => .ok [n]
    | none => .error "badly formed hexadecimal UUID string"
  | .ok _ => .error "AttributeError"

/-- Models `AdPacket.uuids`: for each UUID-list type in the fixed order, every
matching structure's UUIDs; then for each service-data type in the fixed
order, every matching structure's UUID.  An exception from any structure
propagates (aborts the whole property access). -/
def AdPacket.uuids (p : AdPacket) : Except String (List Nat) :=
  match ((uuidListTypesOrdered.map (fun t => p.get_all t)).flatten).mapM structListUuids with
  | .error e => .error e
  | .ok listParts =>
    match ((serviceDataTypesOrdered.map (fun t => p.get_all t)).flatten).mapM structServiceUuid with
    | .error e => .error e
    | .ok sdParts => .ok (listParts.flatten ++ sdParts.flatten)

/-- The low 96 bits shared by every expanded short UUID:
`0000-1000-8000-00805F9B34FB` of the base UUID. -/
def baseLow : Nat := 0x00001000800000805F9B34FB

/-- Numeric description of UUID expansion: a 16- or 32-bit value is
shifted into the top 32 bits above the base UUID's low 96 bits; a 128-bit
value is the UUID's integer itself. -/
def specExpand (w x : Nat) : Nat :=
  if w = 128 then x else x * 2 ^ 96 + baseLow

/-- Specification-level chunking: the `i`-th chunk of `value` is
`value[i*s : i*s + s]` and there are `ceil(len(value) / s)` chunks, so a
trailing partial chunk is included (interpreted little-endian over the
bytes it has). -/
def chunkIntsSpec (s : Nat) (v : List Byte) : List Nat :=
  (List.range ((v.length + s - 1) / s)).map (fun i => bytesToNatLE ((v.drop (i * s)).take s))

/-- Specification-level description of `AdPacket.uuids`: for each
UUID-list ad_type in the source's fixed iteration order, every matching
structure's chunk UUIDs (as 128-bit integers) in document order within
the type; then for each service-data ad_type in the fixed order, every
matching structure's single UUID. -/
def uuidsSpec (p : AdPacket) : List Nat :=
  ((uuidListTypesOrdered.map (fun t =>
      ((p.get_all t).map (fun st =>
        (chunkIntsSpec (((uuidListWidth t).getD 0) / 8) st.value).map
          (specExpand ((uuidListWidth t).getD 0)))).flatten)).flatten)
  ++ ((serviceDataTypesOrdered.map (fun t =>
      (p.get_all t).map (fun st =>
        specExpand ((serviceDataWidth t).getD 0)
          (bytesToNatLE (st.value.take (((serviceDataWidth t).getD 0) / 8)))))).flatten)

theorem iterateAux_nil (fuel : Nat) : iterateAux fuel [] = some [] := by
  cases fuel <;> rfl

theorem framingAbortsAux_nil (fuel : Nat) : framingAbortsAux fuel [] = false := by
  cases fuel <;> rfl

theorem iterateAux_fuel_irrel :
    ∀ (f₁ f₂ : Nat) (data : List Byte), data.length ≤ f₁ → data.length ≤ f₂ →
      iterateAux f₁ data = iterateAux f₂ data := by
  intro f₁
  induction f₁ with
  | zero =>
    intro f₂ data h₁ _
    match data with
    | [] => cases f₂ <;> rfl
    | _ :: _ => simp at h₁
  | succ f ih =>
    intro f₂ data h₁ h₂
    match data, f₂ with
    | [], g => rw [iterateAux_nil, iterateAux_nil]
    | _ :: _, 0 => simp at h₂
    | [l], g + 1 => rfl
    | l :: t :: rest, g + 1 =>
      simp only [iterateAux]
      by_cases hl : l.val = 0
      · simp [hl]
      · simp only [hl, if_false]
        have hlen : ((l :: t :: rest).drop (l.val + 1)).length ≤ f := by
          simp only [List.length_drop, List.length_cons] at *
          omega
        have hlen' : ((l :: t :: rest).drop (l.val + 1)).length ≤ g := by
          simp only [List.length_drop, List.length_cons] at *
          omega
        rw [ih g _ hlen hlen']

theorem framingAbortsAux_fuel_irrel :
    ∀ (f₁ f₂ : Nat) (data : List Byte), data.length ≤ f₁ → data.length ≤ f₂ →
      framingAbortsAux f₁ data = framingAbortsAux f₂ data := by
  intro f₁
  induction f₁ with
  | zero =>
    intro f₂ data h₁ _
    match data with
    | [] => cases f₂ <;> rfl
    | _ :: _ => simp at h₁
  | succ f ih =>
    intro f₂ data h₁ h₂
    match data, f₂ with
    | [], g => rw [framingAbortsAux_nil, framingAbortsAux_nil]
    | _ :: _, 0 => simp at h₂
    | [l], g + 1 => rfl
    | l :: t :: rest, g + 1 =>
      simp only [framingAbortsAux]
      by_cases hl : l.val = 0
      · simp [hl]
      · simp only [hl, if_false]
        have hlen : ((l :: t :: rest).drop (l.val + 1)).length ≤ f := by
          simp only [List.length_drop, List.length_cons] at *
          omega
        have hlen' : ((l :: t :: rest).drop (l.val + 1)).length ≤ g := by
          simp only [List.length_drop, List.length_cons] at *
          omega
        rw [ih g _ hlen hlen']

theorem iterate_nil : iterate_ad_structures [] = some [] := rfl

theorem iterate_single (l : Byte) :
    iterate_ad_structures [l] = if l.val = 0 then some [] else none := rfl

theorem iterate_cons_cons (l t : Byte) (rest : List Byte) :
    iterate_ad_structures (l :: t :: rest) =
      if l.val = 0 then some [] else
        (iterate_ad_structures ((l :: t :: rest).drop (l.val + 1))).map
          (fun tail =>
            { length := l.val, ad_type := t.val, value := rest.take (l.val - 1) } :: tail) := by
  show iterateAux (rest.length + 2) _ = _
  simp only [iterateAux]
  by_cases hl : l.val = 0
  · simp [hl]
  · simp only [hl, if_false, iterate_ad_structures]
    rw [iterateAux_fuel_irrel (rest.length + 1) ((l :: t :: rest).drop (l.val + 1)).length]
    · simp only [List.length_drop, List.length_cons]
      omega
    · exact Nat.le_refl _

theorem framingAborts_cons_cons (l t : Byte) (rest : List Byte) :
    framingAborts (l :: t :: rest) =
      if l.val = 0 then false
      else framingAborts ((l :: t :: rest).drop (l.val + 1)) := by
  show framingAbortsAux (rest.length + 2) _ = _
  simp only [framingAbortsAux]
  by_cases hl : l.val = 0
  · simp [hl]
  · simp only [hl, if_false, framingAborts]
    rw [framingAbortsAux_fuel_irrel (rest.length + 1) ((l :: t :: rest).drop (l.val + 1)).length]
    · simp only [List.length_drop, List.length_cons]
      omega
    · exact Nat.le_refl _

theorem framingAborts_nil : framingAborts [] = false := rfl

theorem framingAborts_single (l : Byte) :
    framingAborts [l] = if l.val = 0 then false else true := rfl

theorem iterate_eq_none_iff_aux :
    ∀ (n : Nat) (data : List Byte), data.length ≤ n →
      (iterate_ad_structures data = none ↔ framingAborts data = true) := by
  intro n
  induction n with
  | zero =>
    intro data h
    match data with
    | [] => simp [iterate_nil, framingAborts_nil]
    | _ :: _ => simp at h
  | succ n ih =>
    intro data h
    match data with
    | [] => simp [iterate_nil, framingAborts_nil]
    | [l] =>
      rw [iterate_single, framingAborts_single]
      by_cases hl : l.val = 0 <;> simp [hl]
    | l :: t :: rest =>
      rw [iterate_cons_cons, framingAborts_cons_cons]
      by_cases hl : l.val = 0
      · simp [hl]
      · simp only [hl, if_false, Option.map_eq_none']
        exact ih _ (by simp only [List.length_drop, List.length_cons] at *; omega)

theorem iterate_consumes_aux :
    ∀ (n : Nat) (data : List Byte) (structs : List AdStruct), data.length ≤ n →
      iterate_ad_structures data = some structs → 2 * structs.length ≤ data.length := by
  intro n
  induction n with
  | zero =>
    intro data structs h hit
    match data with
    | [] =>
      rw [iterate_nil] at hit
      cases hit
      simp
    | _ :: _ => simp at h
  | succ n ih =>
    intro data structs h hit
    match data with
    | [] =>
      rw [iterate_nil] at hit
      cases hit
      simp
    | [l] =>
      rw [iterate_single] at hit
      by_cases hl : l.val = 0
      · rw [if_pos hl] at hit
        cases hit
        simp
      · rw [if_neg hl] at hit
        cases hit
    | l :: t :: rest =>
      rw [iterate_cons_cons] at hit
      by_cases hl : l.val = 0
      · rw [if_pos hl] at hit
        cases hit
        simp
      · rw [if_neg hl] at hit
        rcases Option.map_eq_some'.mp hit with ⟨tail, htail, hcons⟩
        have := ih _ tail (by simp only [List.length_drop, List.length_cons] at *; omega) htail
        subst hcons
        simp only [List.length_drop, List.length_cons, List.length] at *
        omega

/-- Claim C4, counterexample: The claim says packet framing never fails on
any input byte string.  But on the one-byte input `[0x02]` the parser
reads the nonzero length byte and then evaluates `data[1]`, which raises
`IndexError`: framing fails (modelled as `none`). -/
theorem C4_counterexample : AdPacket.from_bytes [2] = none := rfl

/-- Claim C4, amended: Framing fails exactly when the recursion reaches a
state in which a single byte remains and it is nonzero (the length byte is
read, then reading the type byte raises `IndexError`); in every other case
— including a declared length exceeding the remaining buffer, which
yields a structure with a shorter-than-declared value — framing succeeds
without an exception. -/
theorem C4_framing_aborts_iff (data : List Byte) :
    AdPacket.from_bytes data = none ↔ framingAborts data = true := by
  rw [AdPacket.from_bytes, Option.map_eq_none']
  exact iterate_eq_none_iff_aux data.length data (Nat.le_refl _)

/-- Claim C10: Packet framing terminates on every finite input: every
structure emitted by `AdPacket.from_bytes` accounts for at least two
consumed input bytes (the length byte plus at least one more, since a
zero length byte stops framing), so the number of structures is bounded by
half the input length and the recursion in `from_bytes` is well-founded. -/
theorem C10_framing_consumes_two_bytes_per_struct (data : List Byte) (p : AdPacket)
    (h : AdPacket.from_bytes data = some p) :
    2 * p.ad_structs.length ≤ data.length := by
  rcases Option.map_eq_some'.mp h with ⟨structs, hstructs, hp⟩
  subst hp
  exact iterate_consumes_aux data.length data structs (Nat.le_refl _) hstructs

/-- Witness for C10 at the concrete input `[0x02, 0x01, 0x06]`. -/
theorem C10_witness :
    2 * (AdPacket.mk [{ length := 2, ad_type := 1, value := [6] }]).ad_structs.length ≤
      ([2, 1, 6] : List Byte).length :=
  C10_framing_consumes_two_bytes_per_struct [2, 1, 6] _ (by decide)

theorem toBytes_of_fits (st : AdStruct) (h₁ : st.length < 256) (h₂ : st.ad_type < 256) :
    st.toBytes = some (⟨st.length, h₁⟩ :: ⟨st.ad_type, h₂⟩ :: st.value) := by
  rw [AdStruct.toBytes, dif_pos ⟨h₁, h₂⟩]

theorem encode_then_parse_aux :
    ∀ structs : List AdStruct,
      (∀ st ∈ structs, st.length = 1 + st.value.length ∧ st.ad_type < 256 ∧ st.length < 256) →
      ∃ bs, structs.mapM AdStruct.toBytes = some bs ∧
        iterate_ad_structures bs.flatten = some structs := by
  intro structs
  induction structs with
  | nil =>
    intro _
    exact ⟨[], rfl, iterate_nil⟩
  | cons st rest ih =>
    intro h
    obtain ⟨hlen, htype, hfit⟩ := h st (List.mem_cons_self st rest)
    obtain ⟨bs, hbs, hiter⟩ := ih (fun x hx => h x (List.mem_cons_of_mem st hx))
    refine ⟨(⟨st.length, hfit⟩ :: ⟨st.ad_type, htype⟩ :: st.value) :: bs, ?_, ?_⟩
    · rw [List.mapM_cons, toBytes_of_fits st hfit htype, hbs]
      rfl
    · have hpos : st.length ≠ 0 := by omega
      rw [List.flatten_cons, List.cons_append, List.cons_append, iterate_cons_cons]
      simp only [hpos, if_false]
      have hval : st.length - 1 = st.value.length := by omega
      have hdrop :
          ((⟨st.length, hfit⟩ :: ⟨st.ad_type, htype⟩ :: (st.value ++ bs.flatten) :
              List Byte)).drop (st.length + 1) = bs.flatten := by
        have : st.length + 1 = (st.length - 1) + 2 := by omega
        rw [this, List.drop_succ_cons, List.drop_succ_cons, hval, List.drop_left]
      rw [hdrop, hiter]
      simp only [Option.map_some']
      congr 1
      rw [hval, List.take_left]

theorem parse_then_encode_aux :
    ∀ (n : Nat) (data : List Byte) (structs : List AdStruct), data.length ≤ n →
      iterate_ad_structures data = some structs →
      (∀ st ∈ structs, st.length = 1 + st.value.length) →
      (structs.map (fun st => 1 + st.length)).sum = data.length →
      ∃ bs, structs.mapM AdStruct.toBytes = some bs ∧ bs.flatten = data := by
  intro n
  induction n with
  | zero =>
    intro data structs h hit _ _
    match data with
    | [] =>
      rw [iterate_nil] at hit
      cases hit
      exact ⟨[], rfl, rfl⟩
    | _ :: _ => simp at h
  | succ n ih =>
    intro data structs h hit hcons hsum
    match data with
    | [] =>
      rw [iterate_nil] at hit
      cases hit
      exact ⟨[], rfl, rfl⟩
    | [l] =>
      rw [iterate_single] at hit
      by_cases hl : l.val = 0
      · rw [if_pos hl] at hit
        cases hit
        simp at hsum
      · rw [if_neg hl] at hit
        cases hit
    | l :: t :: rest =>
      rw [iterate_cons_cons] at hit
      by_cases hl : l.val = 0
      · rw [if_pos hl] at hit
        cases hit
        simp at hsum
      · rw [if_neg hl] at hit
        rcases Option.map_eq_some'.mp hit with ⟨tail, htail, hstructs⟩
        subst hstructs
        have hst := hcons _ (List.mem_cons_self _ tail)
        simp only at hst
        have htake : (rest.take (l.val - 1)).length = l.val - 1 := by
          rw [List.length_take]
          simp only [List.length_take] at hst
          omega
        have hrest : l.val - 1 ≤ rest.length := by
          rw [List.length_take] at htake
          omega
        have hdropdata :
            ((l :: t :: rest : List Byte)).drop (l.val + 1) = rest.drop (l.val - 1) := by
          have : l.val + 1 = (l.val - 1) + 2 := by omega
          rw [this, List.drop_succ_cons, List.drop_succ_cons]
        have hsum' :
            (tail.map (fun st => 1 + st.length)).sum = (rest.drop (l.val - 1)).length := by
          simp only [List.map_cons, List.sum_cons, List.length_cons, List.length_drop] at hsum ⊢
          omega
        have hlen' : (rest.drop (l.val - 1)).length ≤ n := by
          simp only [List.length_drop, List.length_cons] at h ⊢
          omega
        rw [hdropdata] at htail
        obtain ⟨bs, hbs, hflat⟩ :=
          ih _ tail hlen' htail (fun x hx => hcons x (List.mem_cons_of_mem _ hx)) hsum'
        refine ⟨(l :: t :: rest.take (l.val - 1)) :: bs, ?_, ?_⟩
        · rw [List.mapM_cons,
            toBytes_of_fits _ l.isLt t.isLt, hbs]
          simp only [Option.bind_some, Option.bind_eq_bind]
          rfl
        · rw [List.flatten_cons, hflat, List.cons_append, List.cons_append,
            List.take_append_drop]

/-- Claim C1, counterexample: Two concrete failures of the round-trip
claim as stated.  (i) The packet holding one structure with a 255-byte
value satisfies `length == 1 + len(value)` and its `ad_type` fits in one
byte, yet `to_bytes` raises (`bytes([256, 9])` is a `ValueError`), so no
bytes are produced and nothing parses back.  (ii) The byte string
`[0x00, 0x01, 0x02]` frames to the empty structure list (zero length byte
stops framing), every structure of which trivially has a consistent
length, yet re-encoding yields `[]`, not the original bytes. -/
theorem C1_counterexample :
    AdPacket.toBytes ⟨[{ length := 256, ad_type := 9, value := List.replicate 255 0 }]⟩ = none
    ∧ AdPacket.from_bytes [0, 1, 2] = some ⟨[]⟩
    ∧ AdPacket.toBytes ⟨[]⟩ = some [] := by
  refine ⟨?_, rfl, rfl⟩
  rw [AdPacket.toBytes]
  have : AdStruct.toBytes { length := 256, ad_type := 9, value := List.replicate 255 0 }
      = none := by
    rw [AdStruct.toBytes, dif_neg]
    simp
  rw [List.mapM_cons, this]
  rfl

/-- Claim C1, amended: Round trip.  (i) For every AD packet whose
structures all satisfy `length == 1 + len(value)`, whose `ad_type` values
fit in one byte, *and whose `length` values fit in one byte* (without
this, `bytes([length, ad_type])` raises), parsing the bytes produced by
`to_bytes` yields a packet structurally equal to the original.  (ii) For
every byte string `B` whose framing succeeds with structures whose stored
`length` matches their `value` length, *and whose framing consumed all of
`B`* (the structures' encoded sizes sum to `len(B)`; framing stops early
at a zero length byte, discarding the rest), re-encoding reproduces `B`
exactly. -/
theorem C1_round_trip :
    (∀ p : AdPacket,
      (∀ st ∈ p.ad_structs,
        st.length = 1 + st.value.length ∧ st.ad_type < 256 ∧ st.length < 256) →
      (p.toBytes).bind AdPacket.from_bytes = some p)
    ∧ (∀ (data : List Byte) (p : AdPacket),
      AdPacket.from_bytes data = some p →
      (∀ st ∈ p.ad_structs, st.length = 1 + st.value.length) →
      (p.ad_structs.map (fun st => 1 + st.length)).sum = data.length →
      p.toBytes = some data) := by
  constructor
  · intro p h
    obtain ⟨structs⟩ := p
    obtain ⟨bs, hbs, hiter⟩ := encode_then_parse_aux structs h
    have hfb : AdPacket.from_bytes bs.flatten = some ⟨structs⟩ := by
      rw [AdPacket.from_bytes, hiter]
      rfl
    rw [AdPacket.toBytes, hbs]
    exact hfb
  · intro data p hparse hcons hsum
    rcases Option.map_eq_some'.mp hparse with ⟨structs, hstructs, hp⟩
    subst hp
    obtain ⟨bs, hbs, hflat⟩ :=
      parse_then_encode_aux data.length data structs (Nat.le_refl _) hstructs hcons hsum
    rw [AdPacket.toBytes]
    simp only [hbs, Option.map_some', hflat]

/-- Witness for C1 at the concrete packet
`[{length 2, Flags, [0x06]}]` and the concrete bytes `[0x02, 0x01, 0x06]`. -/
theorem C1_witness :
    ((AdPacket.mk [{ length := 2, ad_type := 1, value := [6] }]).toBytes).bind
        AdPacket.from_bytes = some (AdPacket.mk [{ length := 2, ad_type := 1, value := [6] }])
    ∧ (AdPacket.mk [{ length := 2, ad_type := 1, value := [6] }]).toBytes =
        some [2, 1, 6] :=
  ⟨C1_round_trip.1 _ (by decide),
   C1_round_trip.2 [2, 1, 6] _ (by decide) (by decide) (by decide)⟩

/-! ## Helper lemmas -/

theorem mapM_option_some {α β : Type} (f : α → Option β) (g : α → β) :
    ∀ l : List α, (∀ x ∈ l, f x = some (g x)) → l.mapM f = some (l.map g) := by
  intro l
  induction l with
  | nil => intro _; rfl
  | cons a l ih =>
    intro h
    rw [List.mapM_cons, h a (List.mem_cons_self a l), ih (fun x hx => h x (List.mem_cons_of_mem a hx))]
    rfl

theorem mapM_except_ok {α β : Type} (f : α → Except String β) (g : α → β) :
    ∀ l : List α, (∀ x ∈ l, f x = .ok (g x)) → l.mapM f = .ok (l.map g) := by
  intro l
  induction l with
  | nil => intro _; rfl
  | cons a l ih =>
    intro h
    rw [List.mapM_cons, h a (List.mem_cons_self a l), ih (fun x hx => h x (List.mem_cons_of_mem a hx))]
    rfl

theorem mapM_option_append {α β : Type} (f : α → Option β) :
    ∀ (l₁ l₂ : List α) (r₁ r₂ : List β), l₁.mapM f = some r₁ → l₂.mapM f = some r₂ →
      (l₁ ++ l₂).mapM f = some (r₁ ++ r₂) := by
  intro l₁
  induction l₁ with
  | nil =>
    intro l₂ r₁ r₂ h₁ h₂
    cases h₁
    simpa using h₂
  | cons a l ih =>
    intro l₂ r₁ r₂ h₁ h₂
    rw [List.mapM_cons] at h₁
    match ha : f a with
    | none => rw [ha] at h₁; cases h₁
    | some b =>
      rw [ha] at h₁
      match hl : l.mapM f with
      | none => rw [hl] at h₁; cases h₁
      | some rl =>
        rw [hl] at h₁
        cases h₁
        rw [List.cons_append, List.mapM_cons, ha, ih l₂ rl r₂ hl h₂]
        rfl

theorem mapM_option_isSome {α β : Type} (f : α → Option β) :
    ∀ (l : List α) (r : List β), l.mapM f = some r → ∀ x ∈ l, ∃ y, f x = some y := by
  intro l
  induction l with
  | nil => intro r _ x hx; cases hx
  | cons a l ih =>
    intro r h x hx
    rw [List.mapM_cons] at h
    match ha : f a with
    | none => rw [ha] at h; cases h
    | some b =>
      rw [ha] at h
      match hl : l.mapM f with
      | none => rw [hl] at h; cases h
      | some rl =>
        rcases List.mem_cons.mp hx with hx | hx
        · exact ⟨b, hx ▸ ha⟩
        · exact ih rl hl x hx

/-! ## Lemmas about hexadecimal digits -/

theorem hexDigitsAux_fuel_irrel (alpha : List Char) :
    ∀ (f₁ f₂ x : Nat), x < 16 ^ (f₁ + 1) → x < 16 ^ (f₂ + 1) →
      hexDigitsAux alpha f₁ x = hexDigitsAux alpha f₂ x := by
  intro f₁
  induction f₁ with
  | zero =>
    intro f₂ x h₁ _
    rw [pow_one] at h₁
    cases f₂ with
    | zero => rfl
    | succ g => rw [hexDigitsAux, hexDigitsAux, if_pos h₁]
  | succ f ih =>
    intro f₂ x h₁ h₂
    by_cases hx : x < 16
    · rw [hexDigitsAux, if_pos hx]
      cases f₂ with
      | zero => rfl
      | succ g => rw [hexDigitsAux, if_pos hx]
    · cases f₂ with
      | zero =>
        rw [pow_one] at h₂
        exact absurd h₂ hx
      | succ g =>
        rw [hexDigitsAux, if_neg hx, hexDigitsAux, if_neg hx]
        have hdiv₁ : x / 16 < 16 ^ (f + 1) := by
          rw [Nat.div_lt_iff_lt_mul (by norm_num)]
          calc x < 16 ^ (f + 1 + 1) := h₁
          _ = 16 ^ (f + 1) * 16 := by ring
        have hdiv₂ : x / 16 < 16 ^ (g + 1) := by
          rw [Nat.div_lt_iff_lt_mul (by norm_num)]
          calc x < 16 ^ (g + 1 + 1) := h₂
          _ = 16 ^ (g + 1) * 16 := by ring
        rw [ih g (x / 16) hdiv₁ hdiv₂]

theorem self_lt_sixteen_pow (x : Nat) : x < 16 ^ (x + 1) := by
  calc x < 16 ^ x := Nat.lt_pow_self (by norm_num) x
  _ ≤ 16 ^ (x + 1) := Nat.pow_le_pow_right (by norm_num) (Nat.le_succ x)

theorem hexDigits_eq (alpha : List Char) (x : Nat) :
    hexDigits alpha x =
      if x < 16 then [alpha.getD x '0']
      else hexDigits alpha (x / 16) ++ [alpha.getD (x % 16) '0'] := by
  by_cases hx : x < 16
  · rw [if_pos hx, hexDigits]
    cases x with
    | zero => rfl
    | succ n => rw [hexDigitsAux, if_pos hx]
  · rw [if_neg hx, hexDigits, hexDigits]
    have hx1 : 1 ≤ x := by omega
    obtain ⟨n, hn⟩ : ∃ n, x = n + 1 := ⟨x - 1, by omega⟩
    subst hn
    rw [hexDigitsAux, if_neg hx]
    congr 1
    have hdivlt : (n + 1) / 16 < n + 1 := Nat.div_lt_self (by omega) (by norm_num)
    exact hexDigitsAux_fuel_irrel alpha n ((n + 1) / 16) ((n + 1) / 16)
      (lt_trans hdivlt (Nat.lt_pow_self (by norm_num) (n + 1)))
      (self_lt_sixteen_pow ((n + 1) / 16))

theorem hexCharVal_upper_getD : ∀ d, d < 16 → hexCharVal (hexUpper.getD d '0') = some d := by
  decide

theorem hexCharVal_lower_getD : ∀ d, d < 16 → hexCharVal (hexLower.getD d '0') = some d := by
  decide

theorem hexDigits_length (alpha : List Char) :
    ∀ (k x : Nat), 1 ≤ k → x < 16 ^ k → (hexDigits alpha x).length ≤ k := by
  intro k
  induction k with
  | zero => intro x h; omega
  | succ k ih =>
    intro x _ hx
    rw [hexDigits_eq]
    by_cases h16 : x < 16
    · rw [if_pos h16]
      simp
    · rw [if_neg h16, List.length_append]
      have hk : 1 ≤ k := by
        by_contra hk
        have : k = 0 := by omega
        subst this
        rw [pow_one] at hx
        exact h16 hx
      have : x / 16 < 16 ^ k := by
        rw [Nat.div_lt_iff_lt_mul (by norm_num)]
        calc x < 16 ^ (k + 1) := hx
        _ = 16 ^ k * 16 := by ring
      have := ih (x / 16) hk this
      simp only [List.length_cons, List.length_nil]
      omega

theorem foldl_hex_shift (ds : List Nat) :
    ∀ v : Nat, ds.foldl (fun acc d => 16 * acc + d) v =
      v * 16 ^ ds.length + ds.foldl (fun acc d => 16 * acc + d) 0 := by
  induction ds with
  | nil => intro v; simp
  | cons d ds ih =>
    intro v
    rw [List.foldl_cons, List.foldl_cons, ih (16 * v + d), ih (16 * 0 + d)]
    simp only [List.length_cons]
    ring

theorem parseHexDigits_append (cs ds : List Char) (vc vd : Nat)
    (hc : parseHexDigits cs = some vc) (hd : parseHexDigits ds = some vd) :
    parseHexDigits (cs ++ ds) = some (vc * 16 ^ ds.length + vd) := by
  rw [parseHexDigits] at hc hd
  match hmc : cs.mapM hexCharVal, hmd : ds.mapM hexCharVal with
  | none, _ => rw [hmc] at hc; cases hc
  | some rc, none => rw [hmd] at hd; cases hd
  | some rc, some rd =>
    rw [hmc] at hc
    rw [hmd] at hd
    simp only [Option.map_some', Option.some.injEq] at hc hd
    have hlen : rd.length = ds.length := by
      clear hc hd hmc
      induction ds generalizing rd with
      | nil => cases hmd; rfl
      | cons a l ihl =>
        rw [List.mapM_cons] at hmd
        match ha : hexCharVal a with
        | none => rw [ha] at hmd; cases hmd
        | some b =>
          rw [ha] at hmd
          match hl : l.mapM hexCharVal with
          | none => rw [hl] at hmd; cases hmd
          | some rl =>
            rw [hl] at hmd
            cases hmd
            simp [ihl rl hl]
    rw [parseHexDigits, mapM_option_append hexCharVal cs ds rc rd hmc hmd]
    simp only [Option.map_some', Option.some.injEq]
    rw [List.foldl_append, foldl_hex_shift rd (rc.foldl (fun acc d => 16 * acc + d) 0),
      hc, hd, hlen]

theorem parseHexDigits_hexDigits (alpha : List Char)
    (halpha : ∀ d, d < 16 → hexCharVal (alpha.getD d '0') = some d) :
    ∀ x, parseHexDigits (hexDigits alpha x) = some x := by
  intro x
  induction x using Nat.strong_induction_on with
  | _ x ih =>
    rw [hexDigits_eq]
    by_cases hx : x < 16
    · rw [if_pos hx, parseHexDigits, List.mapM_cons, halpha x hx]
      simp
      rfl
    · rw [if_neg hx]
      have hdiv : x / 16 < x := Nat.div_lt_self (by omega) (by norm_num)
      have hmod : x % 16 < 16 := Nat.mod_lt x (by norm_num)
      have h₁ := ih (x / 16) hdiv
      have h₂ : parseHexDigits [alpha.getD (x % 16) '0'] = some (x % 16) := by
        rw [parseHexDigits, List.mapM_cons, halpha (x % 16) hmod]
        simp
        rfl
      rw [parseHexDigits_append _ _ _ _ h₁ h₂]
      simp only [List.length_cons, List.length_nil, pow_one, Option.some.injEq]
      omega

theorem parseHexDigits_replicate_zero : ∀ k, parseHexDigits (List.replicate k '0') = some 0 := by
  intro k
  induction k with
  | zero => rfl
  | succ k ih =>
    rw [List.replicate_succ]
    have h₁ : parseHexDigits ['0'] = some 0 := by decide
    have := parseHexDigits_append ['0'] (List.replicate k '0') 0 0 h₁ ih
    simpa using this

theorem parseHexDigits_padLeft (alpha : List Char)
    (halpha : ∀ d, d < 16 → hexCharVal (alpha.getD d '0') = some d)
    (w x : Nat) : parseHexDigits (padLeft w (hexDigits alpha x)) = some x := by
  rw [padLeft]
  have := parseHexDigits_append (List.replicate (w - (hexDigits alpha x).length) '0')
    (hexDigits alpha x) 0 x (parseHexDigits_replicate_zero _)
    (parseHexDigits_hexDigits alpha halpha x)
  simpa using this

theorem padLeft_length (w : Nat) (ds : List Char) (h : ds.length ≤ w) :
    (padLeft w ds).length = w := by
  rw [padLeft, List.length_append, List.length_replicate]
  omega

theorem parseHexDigits_no_hyphen (cs : List Char) (v : Nat)
    (h : parseHexDigits cs = some v) : cs.filter (fun c => c ≠ '-') = cs := by
  rw [parseHexDigits] at h
  match hm : cs.mapM hexCharVal with
  | none => rw [hm] at h; cases h
  | some r =>
    apply List.filter_eq_self.mpr
    intro c hc
    obtain ⟨y, hy⟩ := mapM_option_isSome hexCharVal cs r hm c hc
    simp only [ne_eq, decide_eq_true_eq]
    intro hcon
    subst hcon
    rw [show hexCharVal '-' = none from by decide] at hy
    cases hy

/-! ## Correctness of `get_full_uuid` -/

theorem baseTail_filter :
    ((strDrop baseUuid 9).data.filter (fun c => c ≠ '-')) =
      "00001000800000805F9B34FB".data := by
  decide

theorem baseTail_parse :
    parseHexDigits
      "00001000800000805F9B34FB".data = some baseLow := by
  decide

theorem get_full_uuid_16 (x : Nat) (hx : x < 2 ^ 16) :
    get_full_uuid x 16 = .ok (specExpand 16 x) := by
  have hpad : parseHexDigits (padLeft 4 (hexDigits hexUpper x)) = some x :=
    parseHexDigits_padLeft hexUpper hexCharVal_upper_getD 4 x
  have hpadlen : (padLeft 4 (hexDigits hexUpper x)).length = 4 :=
    padLeft_length 4 _ (hexDigits_length hexUpper 4 x (by norm_num) (by norm_num at hx ⊢; omega))
  have hfilter := parseHexDigits_no_hyphen _ x hpad
  rw [get_full_uuid, if_pos rfl]
  have hdata : (strTake baseUuid 4 ++ formatHexUpper 4 x ++ "-" ++ strDrop baseUuid 9).data =
      (['0', '0', '0', '0'] ++ padLeft 4 (hexDigits hexUpper x)) ++
        (['-'] ++ (strDrop baseUuid 9).data) := by
    have h₁ : (strTake baseUuid 4).data = ['0', '0', '0', '0'] := by decide
    simp only [String.data_append, h₁, formatHexUpper]
    simp
  rw [uuidParse]
  simp only [hdata, List.filter_append, hfilter, baseTail_filter]
  have hfour : (['0', '0', '0', '0'] : List Char).filter (fun c => c ≠ '-') =
      ['0', '0', '0', '0'] := by decide
  have hhyph : (['-'] : List Char).filter (fun c => c ≠ '-') = [] := by decide
  rw [hfour, hhyph]
  have hlen : ((['0', '0', '0', '0'] ++ padLeft 4 (hexDigits hexUpper x)) ++
      ([] ++ "00001000800000805F9B34FB".data)).length = 32 := by
    simp [hpadlen]
  rw [if_pos hlen]
  have hp₁ : parseHexDigits (['0', '0', '0', '0'] : List Char) = some 0 := by decide
  have hp₂ := parseHexDigits_append _ _ _ _ hpad baseTail_parse
  have hp₃ := parseHexDigits_append _ _ _ _ hp₁ hp₂
  rw [List.nil_append, List.append_assoc, hp₃]
  have : x * 16 ^ ("00001000800000805F9B34FB".data : List Char).length + baseLow =
      specExpand 16 x := by
    rw [specExpand, if_neg (by norm_num)]
    norm_num
  rw [this]
  simp

theorem get_full_uuid_32 (x : Nat) (hx : x < 2 ^ 32) :
    get_full_uuid x 32 = .ok (specExpand 32 x) := by
  have hpad : parseHexDigits (padLeft 8 (hexDigits hexUpper x)) = some x :=
    parseHexDigits_padLeft hexUpper hexCharVal_upper_getD 8 x
  have hpadlen : (padLeft 8 (hexDigits hexUpper x)).length = 8 :=
    padLeft_length 8 _ (hexDigits_length hexUpper 8 x (by norm_num) (by norm_num at hx ⊢; omega))
  have hfilter := parseHexDigits_no_hyphen _ x hpad
  rw [get_full_uuid, if_neg (by norm_num), if_pos rfl]
  have hdata : (formatHexUpper 8 x ++ "-" ++ strDrop baseUuid 8).data =
      padLeft 8 (hexDigits hexUpper x) ++ (['-'] ++ (strDrop baseUuid 8).data) := by
    simp only [String.data_append, formatHexUpper]
    simp
  rw [uuidParse]
  simp only [hdata, List.filter_append, hfilter]
  have htail : ((strDrop baseUuid 8).data.filter (fun c => c ≠ '-')) =
      "00001000800000805F9B34FB".data := by decide
  have hhyph : (['-'] : List Char).filter (fun c => c ≠ '-') = [] := by decide
  rw [htail, hhyph]
  have hlen : (padLeft 8 (hexDigits hexUpper x) ++
      ([] ++ "00001000800000805F9B34FB".data)).length = 32 := by
    simp [hpadlen]
  rw [if_pos hlen]
  have hp₂ := parseHexDigits_append _ _ _ _ hpad baseTail_parse
  rw [List.nil_append, hp₂]
  have : x * 16 ^ ("00001000800000805F9B34FB".data : List Char).length + baseLow =
      specExpand 32 x := by
    rw [specExpand, if_neg (by norm_num)]
    norm_num
  rw [this]

theorem get_full_uuid_128 (x : Nat) (hx : x < 2 ^ 128) :
    get_full_uuid x 128 = .ok (specExpand 128 x) := by
  rw [get_full_uuid, if_neg (by norm_num), if_neg (by norm_num), if_pos rfl, if_pos hx,
    specExpand, if_pos rfl]

theorem specExpand_lt (w x : Nat)
    (h : (w = 16 ∧ x < 2 ^ 16) ∨ (w = 32 ∧ x < 2 ^ 32) ∨ (w = 128 ∧ x < 2 ^ 128)) :
    specExpand w x < 2 ^ 128 := by
  have hbl : baseLow < 2 ^ 96 := by rw [baseLow]; norm_num
  rcases h with ⟨hw, hx⟩ | ⟨hw, hx⟩ | ⟨hw, hx⟩
  · subst hw
    rw [specExpand, if_neg (by norm_num)]
    have h₁ : x * 2 ^ 96 + baseLow < (x + 1) * 2 ^ 96 := by
      rw [Nat.succ_mul]
      omega
    have h₂ : (x + 1) * 2 ^ 96 ≤ 2 ^ 16 * 2 ^ 96 := Nat.mul_le_mul_right _ hx
    calc specExpand 16 x < (x + 1) * 2 ^ 96 := by rw [specExpand, if_neg (by norm_num)]; exact h₁
    _ ≤ 2 ^ 16 * 2 ^ 96 := h₂
    _ ≤ 2 ^ 128 := by norm_num
  · subst hw
    have h₁ : x * 2 ^ 96 + baseLow < (x + 1) * 2 ^ 96 := by
      rw [Nat.succ_mul]
      omega
    have h₂ : (x + 1) * 2 ^ 96 ≤ 2 ^ 32 * 2 ^ 96 := Nat.mul_le_mul_right _ hx
    calc specExpand 32 x < (x + 1) * 2 ^ 96 := by rw [specExpand, if_neg (by norm_num)]; exact h₁
    _ ≤ 2 ^ 32 * 2 ^ 96 := h₂
    _ ≤ 2 ^ 128 := by norm_num
  · subst hw
    rw [specExpand, if_pos rfl]
    exact hx

theorem get_full_uuid_spec (w x : Nat)
    (h : (w = 16 ∧ x < 2 ^ 16) ∨ (w = 32 ∧ x < 2 ^ 32) ∨ (w = 128 ∧ x < 2 ^ 128)) :
    get_full_uuid x w = .ok (specExpand w x) := by
  rcases h with ⟨hw, hx⟩ | ⟨hw, hx⟩ | ⟨hw, hx⟩
  · subst hw; exact get_full_uuid_16 x hx
  · subst hw; exact get_full_uuid_32 x hx
  · subst hw; exact get_full_uuid_128 x hx

/-! ## Round trip between `uuidToString` and `uuidParse` -/

theorem split_8_4_4_4 (l : List Char) :
    l.take 8 ++ ((l.drop 8).take 4 ++ ((l.drop 12).take 4 ++ ((l.drop 16).take 4 ++ l.drop 20))) =
      l := by
  have h1 : (l.drop 8).drop 4 = l.drop 12 := by simp [List.drop_drop]
  have h2 : (l.drop 12).drop 4 = l.drop 16 := by simp [List.drop_drop]
  have h3 : (l.drop 16).drop 4 = l.drop 20 := by simp [List.drop_drop]
  calc l.take 8 ++ ((l.drop 8).take 4 ++ ((l.drop 12).take 4 ++ ((l.drop 16).take 4 ++ l.drop 20)))
      = l.take 8 ++ ((l.drop 8).take 4 ++ ((l.drop 12).take 4 ++
          ((l.drop 16).take 4 ++ (l.drop 16).drop 4))) := by rw [h3]
    _ = l.take 8 ++ ((l.drop 8).take 4 ++ ((l.drop 12).take 4 ++ (l.drop 12).drop 4)) := by
          rw [List.take_append_drop, h2]
    _ = l.take 8 ++ ((l.drop 8).take 4 ++ (l.drop 8).drop 4) := by
          rw [List.take_append_drop, h1]
    _ = l.take 8 ++ l.drop 8 := by rw [List.take_append_drop]
    _ = l := List.take_append_drop 8 l

theorem uuidParse_uuidToString (n : Nat) (hn : n < 2 ^ 128) :
    uuidParse (uuidToString n) = some n := by
  have hparse : parseHexDigits (padLeft 32 (hexDigits hexLower n)) = some n :=
    parseHexDigits_padLeft hexLower hexCharVal_lower_getD 32 n
  have hlen : (padLeft 32 (hexDigits hexLower n)).length = 32 :=
    padLeft_length 32 _ (hexDigits_length hexLower 32 n (by norm_num)
      (by norm_num at hn ⊢; omega))
  have hfil : (padLeft 32 (hexDigits hexLower n)).filter (fun c => c ≠ '-') =
      padLeft 32 (hexDigits hexLower n) := parseHexDigits_no_hyphen _ n hparse
  have hmem := List.filter_eq_self.mp hfil
  have hseg : ∀ l : List Char, l ⊆ padLeft 32 (hexDigits hexLower n) →
      l.filter (fun c => c ≠ '-') = l :=
    fun l hsub => List.filter_eq_self.mpr (fun c hc => hmem c (hsub hc))
  have f0 := hseg _ (List.take_subset 8 (padLeft 32 (hexDigits hexLower n)))
  have f1 := hseg ((padLeft 32 (hexDigits hexLower n)).drop 8 |>.take 4)
    (fun c hc => List.drop_subset 8 _ (List.take_subset 4 _ hc))
  have f2 := hseg ((padLeft 32 (hexDigits hexLower n)).drop 12 |>.take 4)
    (fun c hc => List.drop_subset 12 _ (List.take_subset 4 _ hc))
  have f3 := hseg ((padLeft 32 (hexDigits hexLower n)).drop 16 |>.take 4)
    (fun c hc => List.drop_subset 16 _ (List.take_subset 4 _ hc))
  have f4 := hseg ((padLeft 32 (hexDigits hexLower n)).drop 20)
    (List.drop_subset 20 _)
  have hd : ∀ X : List Char,
      ('-' :: X).filter (fun c => c ≠ '-') = X.filter (fun c => c ≠ '-') := by
    intro X
    simp [List.filter_cons]
  have hfL :
      ((padLeft 32 (hexDigits hexLower n)).take 8 ++
        ('-' :: ((padLeft 32 (hexDigits hexLower n)).drop 8).take 4) ++
        ('-' :: ((padLeft 32 (hexDigits hexLower n)).drop 12).take 4) ++
        ('-' :: ((padLeft 32 (hexDigits hexLower n)).drop 16).take 4) ++
        ('-' :: (padLeft 32 (hexDigits hexLower n)).drop 20)).filter (fun c => c ≠ '-') =
      padLeft 32 (hexDigits hexLower n) := by
    rw [List.filter_append, List.filter_append, List.filter_append, List.filter_append,
      hd, hd, hd, hd, f0, f1, f2, f3, f4]
    simp only [List.append_assoc]
    exact split_8_4_4_4 _
  show (if (((padLeft 32 (hexDigits hexLower n)).take 8 ++
        ('-' :: ((padLeft 32 (hexDigits hexLower n)).drop 8).take 4) ++
        ('-' :: ((padLeft 32 (hexDigits hexLower n)).drop 12).take 4) ++
        ('-' :: ((padLeft 32 (hexDigits hexLower n)).drop 16).take 4) ++
        ('-' :: (padLeft 32 (hexDigits hexLower n)).drop 20)).filter
          (fun c => c ≠ '-')).length = 32 then
      parseHexDigits (((padLeft 32 (hexDigits hexLower n)).take 8 ++
        ('-' :: ((padLeft 32 (hexDigits hexLower n)).drop 8).take 4) ++
        ('-' :: ((padLeft 32 (hexDigits hexLower n)).drop 12).take 4) ++
        ('-' :: ((padLeft 32 (hexDigits hexLower n)).drop 16).take 4) ++
        ('-' :: (padLeft 32 (hexDigits hexLower n)).drop 20)).filter (fun c => c ≠ '-'))
    else none) = some n
  rw [hfL, if_pos hlen]
  exact hparse

/-! ## The chunking loop of `decode_uuid_list` -/

theorem bytesToNatLE_lt : ∀ l : List Byte, bytesToNatLE l < 256 ^ l.length := by
  intro l
  induction l with
  | nil => simp [bytesToNatLE]
  | cons b bs ih =>
    rw [bytesToNatLE, List.length_cons, pow_succ]
    have hb : b.val < 256 := b.isLt
    have : 256 * bytesToNatLE bs + 256 ≤ 256 * 256 ^ bs.length := by
      have := Nat.succ_le_of_lt ih
      calc 256 * bytesToNatLE bs + 256 = 256 * (bytesToNatLE bs + 1) := by ring
      _ ≤ 256 * 256 ^ bs.length := Nat.mul_le_mul_left 256 this
    omega

theorem chunkIntsSpec_nil (s : Nat) : chunkIntsSpec s [] = [] := by
  rw [chunkIntsSpec]
  cases s with
  | zero => rfl
  | succ t =>
    have : (([] : List Byte).length + (t + 1) - 1) / (t + 1) = 0 := by
      apply Nat.div_eq_of_lt
      simp
    rw [this]
    rfl

theorem ceil_div_step (s : Nat) (hs : 0 < s) (L : Nat) (hL : 0 < L) :
    (L + s - 1) / s = ((L - s) + s - 1) / s + 1 := by
  have key : ∀ a : Nat, 0 < a → (a + s - 1) / s = (a - 1) / s + 1 := by
    intro a ha
    have : a + s - 1 = (a - 1) + s := by omega
    rw [this, Nat.add_div_right _ hs]
  rw [key L hL]
  by_cases hLs : L ≤ s
  · have h₀ : L - s = 0 := by omega
    rw [h₀]
    have h₁ : (0 + s - 1) / s = 0 := Nat.div_eq_of_lt (by omega)
    have h₂ : (L - 1) / s = 0 := Nat.div_eq_of_lt (by omega)
    rw [h₁, h₂]
  · have hLs' : 0 < L - s := by omega
    rw [key (L - s) hLs']
    have : L - 1 = (L - s - 1) + s := by omega
    rw [this, Nat.add_div_right _ hs]

theorem chunkIntsSpec_cons (s : Nat) (hs : 0 < s) (v : List Byte) (hv : v ≠ []) :
    chunkIntsSpec s v = bytesToNatLE (v.take s) :: chunkIntsSpec s (v.drop s) := by
  have hL : 0 < v.length := List.length_pos.mpr hv
  rw [chunkIntsSpec, chunkIntsSpec, List.length_drop,
    ceil_div_step s hs v.length hL, List.range_succ_eq_map, List.map_cons, List.map_map]
  congr 1
  · simp
  · apply List.map_congr_left
    intro i _
    simp only [Function.comp_apply]
    have h₁ : (i + 1) * s = s + i * s := by ring
    rw [h₁, List.drop_drop]

theorem uuidListLoopAux_spec :
    ∀ (fuel w : Nat) (v : List Byte), v.length ≤ fuel → (w = 16 ∨ w = 32 ∨ w = 128) →
      uuidListLoopAux fuel w v =
        .ok ((chunkIntsSpec (w / 8) v).map (fun x => uuidToString (specExpand w x))) := by
  intro fuel
  induction fuel with
  | zero =>
    intro w v h _
    match v with
    | [] => rw [chunkIntsSpec_nil]; rfl
    | _ :: _ => simp at h
  | succ fuel ih =>
    intro w v h hw
    match v with
    | [] => rw [chunkIntsSpec_nil]; rfl
    | b :: bs =>
      have hs : 0 < w / 8 := by rcases hw with h | h | h <;> subst h <;> norm_num
      have hbound : bytesToNatLE ((b :: bs).take (w / 8)) < 256 ^ (w / 8) := by
        calc bytesToNatLE ((b :: bs).take (w / 8)) < 256 ^ ((b :: bs).take (w / 8)).length :=
              bytesToNatLE_lt _
        _ ≤ 256 ^ (w / 8) := Nat.pow_le_pow_right (by norm_num)
              (by rw [List.length_take]; omega)
      have hdisj : (w = 16 ∧ bytesToNatLE ((b :: bs).take (w / 8)) < 2 ^ 16) ∨
          (w = 32 ∧ bytesToNatLE ((b :: bs).take (w / 8)) < 2 ^ 32) ∨
          (w = 128 ∧ bytesToNatLE ((b :: bs).take (w / 8)) < 2 ^ 128) := by
        rcases hw with hww | hww | hww
        · subst hww
          exact Or.inl ⟨rfl, by norm_num at hbound ⊢; omega⟩
        · subst hww
          exact Or.inr (Or.inl ⟨rfl, by norm_num at hbound ⊢; omega⟩)
        · subst hww
          exact Or.inr (Or.inr ⟨rfl, by norm_num at hbound ⊢; omega⟩)
      rw [uuidListLoopAux, get_full_uuid_spec w _ hdisj,
        ih w ((b :: bs).drop (w / 8))
          (by simp only [List.length_drop, List.length_cons] at h ⊢; omega) hw,
        chunkIntsSpec_cons (w / 8) hs (b :: bs) (by simp), List.map_cons]
      rfl

theorem uuidListWidth_cases (adt w : Nat) (h : uuidListWidth adt = some w) :
    w = 16 ∨ w = 32 ∨ w = 128 := by
  rw [uuidListWidth] at h
  simp only [List.lookup] at h
  repeat' split at h
  all_goals simp_all

theorem serviceDataWidth_cases (adt w : Nat) (h : serviceDataWidth adt = some w) :
    w = 16 ∨ w = 32 ∨ w = 128 := by
  rw [serviceDataWidth] at h
  simp only [List.lookup] at h
  repeat' split at h
  all_goals simp_all

theorem decode_uuid_list_spec (adt w : Nat) (value : List Byte) (h : uuidListWidth adt = some w) :
    decode_uuid_list adt value =
      some (.ok ((chunkIntsSpec (w / 8) value).map (fun x => uuidToString (specExpand w x)))) := by
  have hw := uuidListWidth_cases adt w h
  rw [decode_uuid_list, h, Option.map_some', uuidListLoop,
    if_neg (by rcases hw with h | h | h <;> subst h <;> norm_num),
    uuidListLoopAux_spec value.length w value (Nat.le_refl _) hw]

theorem decode_service_data_spec (adt w : Nat) (value : List Byte)
    (h : serviceDataWidth adt = some w) :
    decode_service_data adt value =
      some (.ok { uuid := uuidToString (specExpand w (bytesToNatLE (value.take (w / 8)))),
                  data := value.drop (w / 8) }) := by
  have hw := serviceDataWidth_cases adt w h
  have hbound : bytesToNatLE (value.take (w / 8)) < 256 ^ (w / 8) := by
    calc bytesToNatLE (value.take (w / 8)) < 256 ^ (value.take (w / 8)).length :=
          bytesToNatLE_lt _
    _ ≤ 256 ^ (w / 8) := Nat.pow_le_pow_right (by norm_num)
          (by rw [List.length_take]; omega)
  have hdisj : (w = 16 ∧ bytesToNatLE (value.take (w / 8)) < 2 ^ 16) ∨
      (w = 32 ∧ bytesToNatLE (value.take (w / 8)) < 2 ^ 32) ∨
      (w = 128 ∧ bytesToNatLE (value.take (w / 8)) < 2 ^ 128) := by
    rcases hw with hww | hww | hww
    · subst hww
      exact Or.inl ⟨rfl, by norm_num at hbound ⊢; omega⟩
    · subst hww
      exact Or.inr (Or.inl ⟨rfl, by norm_num at hbound ⊢; omega⟩)
    · subst hww
      exact Or.inr (Or.inr ⟨rfl, by norm_num at hbound ⊢; omega⟩)
  rw [decode_service_data, h, Option.map_some', get_full_uuid_spec w _ hdisj]
  rfl

/-- Claim C5, counterexample: The claim says that when `len(value)` is not
a multiple of the element width the trailing partial bytes are silently
dropped and contribute no UUID, so `[0xAA, 0xBB, 0xCC]` at 16-bit width
would decode to the single UUID `0000bbaa-...`.  In fact the loop
`range(0, len(value), 2)` also visits the partial chunk `[0xCC]`, which
decodes to a second UUID `000000cc-...`. -/
theorem C5_counterexample :
    decode_uuid_list 0x03 [0xAA, 0xBB, 0xCC] ≠
      some (.ok ["0000bbaa-0000-1000-8000-00805f9b34fb"]) := by
  decide

/-- Claim C5, amended: For every UUID-list ad_type of element width `w`
bits and every byte string `value`, the decoder splits `value` into
consecutive `w/8`-byte little-endian chunks starting at offsets `0, w/8,
2*(w/8), ...` — *including a trailing partial chunk when `len(value)` is
not a multiple of `w/8`, whose little-endian integer uses only the bytes
it has* — expands each chunk to a full UUID and returns the UUID strings
in chunk order.  In particular `[0xAA, 0xBB, 0xCC, 0xDD]` at 16-bit width
yields exactly `["0000bbaa-...", "0000ddcc-..."]` in that order. -/
theorem C5_uuid_list_decode :
    (∀ adt w value, uuidListWidth adt = some w →
      decode_uuid_list adt value =
        some (.ok ((chunkIntsSpec (w / 8) value).map (fun x => uuidToString (specExpand w x)))))
    ∧ decode_uuid_list 0x03 [0xAA, 0xBB, 0xCC, 0xDD] =
        some (.ok ["0000bbaa-0000-1000-8000-00805f9b34fb",
                   "0000ddcc-0000-1000-8000-00805f9b34fb"]) := by
  exact ⟨fun adt w value h => decode_uuid_list_spec adt w value h, by decide⟩

/-- Witness for C5 at ad_type `0x02` (incomplete 16-bit list) and value
`[0x01, 0x02]`. -/
theorem C5_witness :
    decode_uuid_list 0x02 [0x01, 0x02] =
      some (.ok ["00000201-0000-1000-8000-00805f9b34fb"]) :=
  (C5_uuid_list_decode.1 0x02 16 [0x01, 0x02] rfl).trans (by decide)

/-- Claim C7: UUID expansion: `expand(0xAAAA, 16)` is
`0000aaaa-0000-1000-8000-00805f9b34fb`; `expand(0xAAAAAAAA, 32)` is
`aaaaaaaa-0000-1000-8000-00805f9b34fb`; for every 128-bit `x`,
`expand(x, 128)` is the UUID with integer value `x`; and every other bit
length fails with the `InvalidArgument` error (`ValueError` carrying the
message below). -/
theorem C7_uuid_expansion :
    get_full_uuid 0xAAAA 16 = .ok 0x0000AAAA00001000800000805F9B34FB
    ∧ get_full_uuid 0xAAAAAAAA 32 = .ok 0xAAAAAAAA00001000800000805F9B34FB
    ∧ (∀ x, x < 2 ^ 128 → get_full_uuid x 128 = .ok x)
    ∧ (∀ x bl, bl ≠ 16 → bl ≠ 32 → bl ≠ 128 →
        get_full_uuid x bl = .error "Invalid bit length. Must be 16, 32, or 128.") := by
  refine ⟨by decide, by decide, ?_, ?_⟩
  · intro x hx
    rw [get_full_uuid_128 x hx, specExpand, if_pos rfl]
  · intro x bl h₁ h₂ h₃
    rw [get_full_uuid, if_neg h₁, if_neg h₂, if_neg h₃]

/-- Witness for C7: `expand(7, 128)` succeeds and `expand(0xAAAA, 64)`
fails with the invalid-bit-length error. -/
theorem C7_witness :
    get_full_uuid 7 128 = .ok 7
    ∧ get_full_uuid 0xAAAA 64 = .error "Invalid bit length. Must be 16, 32, or 128." :=
  ⟨C7_uuid_expansion.2.2.1 7 (by norm_num),
   C7_uuid_expansion.2.2.2 0xAAAA 64 (by norm_num) (by norm_num) (by norm_num)⟩

/-- Claim C8, counterexample: The claim says the service-data decoder
fails when `value` is shorter than `width/8` bytes.  It does not: slicing
`value[:2]` of the one-byte value `[0xAA]` just yields `[0xAA]`, which
expands to the UUID `000000aa-...` with an empty payload, and the decoder
returns normally. -/
theorem C8_counterexample :
    decode_service_data 0x16 [0xAA] =
      some (.ok { uuid := "000000aa-0000-1000-8000-00805f9b34fb", data := [] }) := by
  decide

/-- Claim C8, amended: For every service-data ad_type of UUID width `w`
bits and every byte string `value`, the decoder takes the first `w/8`
bytes (*or all of `value` when it is shorter — it never fails*) as a
little-endian short UUID expanded to 128-bit form, and the remaining
bytes (empty when `value` is short) as opaque payload; in particular
`[0xAA, 0xBB, 0x01, 0x02, 0x03]` at 16-bit width yields uuid
`0000bbaa-...` and data `[0x01, 0x02, 0x03]`. -/
theorem C8_service_data :
    (∀ adt w value, serviceDataWidth adt = some w →
      decode_service_data adt value =
        some (.ok { uuid := uuidToString (specExpand w (bytesToNatLE (value.take (w / 8)))),
                    data := value.drop (w / 8) }))
    ∧ decode_service_data 0x16 [0xAA, 0xBB, 0x01, 0x02, 0x03] =
        some (.ok { uuid := "0000bbaa-0000-1000-8000-00805f9b34fb",
                    data := [0x01, 0x02, 0x03] }) := by
  exact ⟨fun adt w value h => decode_service_data_spec adt w value h, by decide⟩

/-- Witness for C8 at ad_type `0x16` and value `[0xAA, 0xBB]`. -/
theorem C8_witness :
    decode_service_data 0x16 [0xAA, 0xBB] =
      some (.ok { uuid := "0000bbaa-0000-1000-8000-00805f9b34fb", data := [] }) :=
  (C8_service_data.1 0x16 16 [0xAA, 0xBB] rfl).trans (by decide)

/-- Claim C9: For every integer ad_type that is not one of the recognized
`AdType` values and every byte string value, `decode_ad_struct` returns
`None` and raises nothing. -/
theorem C9_unknown_type (adt : Nat) (h : adt ∉ adTypeValues) (value : List Byte) :
    decode_ad_struct adt value = .ok none := by
  rw [decode_ad_struct, if_neg h]

/-- Witness for C9 at the claim's concrete input:
`decode_payload(999, [0x01, 0x02, 0x03])`. -/
theorem C9_witness : decode_ad_struct 999 [0x01, 0x02, 0x03] = .ok none :=
  C9_unknown_type 999 (by decide) [0x01, 0x02, 0x03]

/-- Claim C2, code bug: On the packet parsed from the claim's twenty
bytes, `name` finds the Complete-Local-Name structure but returns `None`
instead of `"Test Device"`: the local-name arm of `decode_ad_struct` is a
tuple pattern (`case A, B, C:` instead of `case A | B | C:`) that never
matches an integer subject, so `decoded` is `None` for name structures;
the repository's own tests (`test_decode_name`, `test_name_property`)
assert the `"Test Device"` behaviour, so the code contradicts its tests. -/
theorem C2_name_returns_none :
    AdPacket.from_bytes [0x02, 0x01, 0x06, 0x0C, 0x09, 0x54, 0x65, 0x73, 0x74, 0x20, 0x44,
        0x65, 0x76, 0x69, 0x63, 0x65, 0x03, 0x03, 0xAA, 0xBB] =
      some ⟨[{ length := 2, ad_type := 1, value := [0x06] },
             { length := 12, ad_type := 9,
               value := [0x54, 0x65, 0x73, 0x74, 0x20, 0x44, 0x65, 0x76, 0x69, 0x63, 0x65] },
             { length := 3, ad_type := 3, value := [0xAA, 0xBB] }]⟩
    ∧ (AdPacket.mk [{ length := 2, ad_type := 1, value := [0x06] },
             { length := 12, ad_type := 9,
               value := [0x54, 0x65, 0x73, 0x74, 0x20, 0x44, 0x65, 0x76, 0x69, 0x63, 0x65] },
             { length := 3, ad_type := 3, value := [0xAA, 0xBB] }]).name = .ok none := by
  exact ⟨by decide, by decide⟩

/-- Claim C3, code bug: For the local-name and URI ad_types the dispatch
in `decode_ad_struct` never reaches the UTF-8 decoder: the arm
`case AdType.SHORTENED_LOCAL_NAME, AdType.COMPLETE_LOCAL_NAME, AdType.URI:`
is a sequence pattern that cannot match an integer, so these types fall
through to the default arm and decode to `None` — no UTF-8 decoding and
no `DecodeError` ever happen, contradicting the claim and the repo's own
test `test_decode_name`. -/
theorem C3_utf8_never_decoded :
    decode_ad_struct 0x09 [0x54, 0x65, 0x73, 0x74, 0x20, 0x44, 0x65, 0x76, 0x69, 0x63, 0x65] =
        .ok none
    ∧ decode_ad_struct 0x08 [0x54, 0x65, 0x73, 0x74] = .ok none
    ∧ decode_ad_struct 0x24 [0x54] = .ok none := by
  decide

/-! ## `AdPacket.uuids` -/

theorem mem_get_all (p : AdPacket) (t : Nat) (st : AdStruct) (h : st ∈ p.get_all t) :
    st.ad_type = t := by
  rw [AdPacket.get_all] at h
  have := (List.mem_filter.mp h).2
  simpa using this

theorem uuidListWidth_key_cases (t w : Nat) (h : uuidListWidth t = some w) :
    t = 2 ∨ t = 3 ∨ t = 4 ∨ t = 5 ∨ t = 6 ∨ t = 7 ∨ t = 0x14 ∨ t = 0x1F ∨ t = 0x15 := by
  rw [uuidListWidth] at h
  simp only [List.lookup] at h
  repeat' split at h
  all_goals simp_all

theorem serviceDataWidth_key_cases (t w : Nat) (h : serviceDataWidth t = some w) :
    t = 0x16 ∨ t = 0x20 ∨ t = 0x21 := by
  rw [serviceDataWidth] at h
  simp only [List.lookup] at h
  repeat' split at h
  all_goals simp_all

theorem mapM_uuidParse_map :
    ∀ ns : List Nat, (∀ n ∈ ns, n < 2 ^ 128) →
      (ns.map uuidToString).mapM uuidParse = some ns := by
  intro ns
  induction ns with
  | nil => intro _; rfl
  | cons n ns ih =>
    intro h
    rw [List.map_cons, List.mapM_cons, uuidParse_uuidToString n (h n (List.mem_cons_self n ns)),
      ih (fun x hx => h x (List.mem_cons_of_mem n hx))]
    rfl

theorem chunk_specExpand_lt (w : Nat) (hw3 : w = 16 ∨ w = 32 ∨ w = 128) (v : List Byte) :
    ∀ n ∈ (chunkIntsSpec (w / 8) v).map (specExpand w), n < 2 ^ 128 := by
  intro n hn
  rcases List.mem_map.mp hn with ⟨x, hx, rfl⟩
  have hxb : x < 256 ^ (w / 8) := by
    rw [chunkIntsSpec] at hx
    rcases List.mem_map.mp hx with ⟨i, _, rfl⟩
    calc bytesToNatLE ((v.drop (i * (w / 8))).take (w / 8)) <
          256 ^ ((v.drop (i * (w / 8))).take (w / 8)).length := bytesToNatLE_lt _
    _ ≤ 256 ^ (w / 8) := Nat.pow_le_pow_right (by norm_num) (by rw [List.length_take]; omega)
  apply specExpand_lt
  rcases hw3 with h | h | h
  · subst h
    exact Or.inl ⟨rfl, by norm_num at hxb ⊢; omega⟩
  · subst h
    exact Or.inr (Or.inl ⟨rfl, by norm_num at hxb ⊢; omega⟩)
  · subst h
    exact Or.inr (Or.inr ⟨rfl, by norm_num at hxb ⊢; omega⟩)

theorem structListUuids_spec (t w : Nat) (hw : uuidListWidth t = some w) (st : AdStruct)
    (hst : st.ad_type = t) :
    structListUuids st = .ok ((chunkIntsSpec (w / 8) st.value).map (specExpand w)) := by
  have hw3 := uuidListWidth_cases t w hw
  have hkey := uuidListWidth_key_cases t w hw
  have hmem : t ∈ adTypeValues := by
    rcases hkey with h | h | h | h | h | h | h | h | h <;> subst h <;> decide
  have ht1 : ¬(t = 1) := by
    rcases hkey with h | h | h | h | h | h | h | h | h <;> subst h <;> decide
  have hdec : st.decoded = .ok (some (.uuidList ((chunkIntsSpec (w / 8) st.value).map
      (fun x => uuidToString (specExpand w x))))) := by
    rw [AdStruct.decoded, hst, decode_ad_struct, if_pos hmem, if_neg ht1]
    simp only [decode_uuid_list_spec t w st.value hw]
    rfl
  have hmapM : ((chunkIntsSpec (w / 8) st.value).map
      (fun x => uuidToString (specExpand w x))).mapM uuidParse =
      some ((chunkIntsSpec (w / 8) st.value).map (specExpand w)) := by
    have := mapM_uuidParse_map ((chunkIntsSpec (w / 8) st.value).map (specExpand w))
      (chunk_specExpand_lt w hw3 st.value)
    rwa [List.map_map] at this
  simp only [structListUuids, hdec, hmapM]

theorem structServiceUuid_spec (t w : Nat) (hw : serviceDataWidth t = some w) (st : AdStruct)
    (hst : st.ad_type = t) :
    structServiceUuid st =
      .ok [specExpand w (bytesToNatLE (st.value.take (w / 8)))] := by
  have hw3 := serviceDataWidth_cases t w hw
  have hkey := serviceDataWidth_key_cases t w hw
  have hmem : t ∈ adTypeValues := by
    rcases hkey with h | h | h <;> subst h <;> decide
  have ht1 : ¬(t = 1) := by
    rcases hkey with h | h | h <;> subst h <;> decide
  have hnolist : uuidListWidth t = none := by
    rcases hkey with h | h | h <;> subst h <;> rfl
  have hexp : specExpand w (bytesToNatLE (st.value.take (w / 8))) < 2 ^ 128 := by
    have hbound : bytesToNatLE (st.value.take (w / 8)) < 256 ^ (w / 8) := by
      calc bytesToNatLE (st.value.take (w / 8)) < 256 ^ (st.value.take (w / 8)).length :=
            bytesToNatLE_lt _
      _ ≤ 256 ^ (w / 8) := Nat.pow_le_pow_right (by norm_num)
            (by rw [List.length_take]; omega)
    apply specExpand_lt
    rcases hw3 with h | h | h
    · subst h
      exact Or.inl ⟨rfl, by norm_num at hbound ⊢; omega⟩
    · subst h
      exact Or.inr (Or.inl ⟨rfl, by norm_num at hbound ⊢; omega⟩)
    · subst h
      exact Or.inr (Or.inr ⟨rfl, by norm_num at hbound ⊢; omega⟩)
  have hdec : st.decoded = .ok (some (.serviceData
      { uuid := uuidToString (specExpand w (bytesToNatLE (st.value.take (w / 8)))),
        data := st.value.drop (w / 8) })) := by
    rw [AdStruct.decoded, hst, decode_ad_struct, if_pos hmem, if_neg ht1, decode_uuid_list,
      hnolist, Option.map_none']
    simp only [decode_service_data_spec t w st.value hw]
    rfl
  simp only [structServiceUuid, hdec, uuidParse_uuidToString _ hexp]

theorem flatten_map_singleton {α β : Type} (f : α → β) :
    ∀ l : List α, (l.map (fun x => [f x])).flatten = l.map f := by
  intro l
  induction l with
  | nil => rfl
  | cons a l ih => simp [ih]

/-- Claim C6, counterexample: The claim says the UUIDs are returned in
structure (document) order.  For the packet holding a complete 16-bit
list (`0x03`) with UUID `0xBBAA` *followed by* an incomplete 16-bit list
(`0x02`) with UUID `0xDDCC`, document order would be
`[0000bbaa-..., 0000ddcc-...]`; the accessor iterates ad_types in a fixed
order that puts `0x02` before `0x03` and returns the UUIDs swapped. -/
theorem C6_counterexample :
    (AdPacket.mk [{ length := 3, ad_type := 3, value := [0xAA, 0xBB] },
                  { length := 3, ad_type := 2, value := [0xCC, 0xDD] }]).uuids ≠
      .ok [0x0000BBAA00001000800000805F9B34FB, 0x0000DDCC00001000800000805F9B34FB] := by
  decide

/-- Claim C6, amended: For every AD packet, `uuids` returns — grouped by
ad_type in the source's fixed iteration order (incomplete/complete 16-bit
lists, incomplete/complete 32-bit lists, incomplete/complete 128-bit
lists, then 16/32/128-bit solicitation lists), document order within each
ad_type — every UUID of every UUID-list structure, followed by (grouped
the same way over the 16/32/128-bit service-data ad_types) every UUID of
every service-data structure, each expanded to full 128-bit form. -/
theorem C6_uuids_grouped (p : AdPacket) : p.uuids = .ok (uuidsSpec p) := by
  have hlistw : ∀ t ∈ uuidListTypesOrdered, (uuidListWidth t).isSome = true := by decide
  have hsdw : ∀ t ∈ serviceDataTypesOrdered, (serviceDataWidth t).isSome = true := by decide
  have hA : ((uuidListTypesOrdered.map (fun t => p.get_all t)).flatten).mapM structListUuids =
      .ok (((uuidListTypesOrdered.map (fun t => p.get_all t)).flatten).map
        (fun st => (chunkIntsSpec (((uuidListWidth st.ad_type).getD 0) / 8) st.value).map
          (specExpand ((uuidListWidth st.ad_type).getD 0)))) := by
    apply mapM_except_ok
    intro st hst
    rcases List.mem_flatten.mp hst with ⟨group, hgroup, hstg⟩
    rcases List.mem_map.mp hgroup with ⟨t, htmem, rfl⟩
    have hty : st.ad_type = t := mem_get_all p t st hstg
    obtain ⟨w, hw⟩ := Option.isSome_iff_exists.mp (hlistw t htmem)
    have := structListUuids_spec t w hw st hty
    simp only [hty, hw, Option.getD_some]
    exact this
  have hB : ((serviceDataTypesOrdered.map (fun t => p.get_all t)).flatten).mapM
      structServiceUuid =
      .ok (((serviceDataTypesOrdered.map (fun t => p.get_all t)).flatten).map
        (fun st => [specExpand ((serviceDataWidth st.ad_type).getD 0)
          (bytesToNatLE (st.value.take (((serviceDataWidth st.ad_type).getD 0) / 8)))])) := by
    apply mapM_except_ok
    intro st hst
    rcases List.mem_flatten.mp hst with ⟨group, hgroup, hstg⟩
    rcases List.mem_map.mp hgroup with ⟨t, htmem, rfl⟩
    have hty : st.ad_type = t := mem_get_all p t st hstg
    obtain ⟨w, hw⟩ := Option.isSome_iff_exists.mp (hsdw t htmem)
    have := structServiceUuid_spec t w hw st hty
    simp only [hty, hw, Option.getD_some]
    exact this
  rw [AdPacket.uuids]
  simp only [hA, hB]
  rw [uuidsSpec]
  congr 1
  congr 1
  · rw [List.map_flatten, List.flatten_flatten, List.map_map, List.map_map]
    apply congrArg
    apply List.map_congr_left
    intro t htmem
    simp only [Function.comp_apply]
    apply congrArg
    apply List.map_congr_left
    intro st hstg
    rw [mem_get_all p t st hstg]
  · rw [flatten_map_singleton, List.map_flatten, List.map_map]
    apply congrArg
    apply List.map_congr_left
    intro t htmem
    simp only [Function.comp_apply]
    apply List.map_congr_left
    intro st hstg
    rw [mem_get_all p t st hstg]

end Bluenumbers
